import Mathlib

/-!
Verification development for the PD20-WebApp sensor backend.

The definitions below are a shallow embedding of the Python sources:
  * `backend/processData.py`   — threshold table, `check_for_anomaly`, and the
    module-level batch tagging loop;
  * `backend/populate_and_process.py` — the duplicated `check_for_anomaly`,
    the continuous generate+tag loop and its document construction;
  * `backend/main.py`          — `parse_timestamp`, `get_time_range_filter`,
    and the `readings` / per-sensor pivot / nodes endpoints.

Python values are modelled as follows: numeric sensor values are rationals
(the Python floats appearing in the threshold table are all exactly
representable); a stored sensor value is either an explicit `None`, a number,
a numeric string (one that `float(...)` accepts, carrying the parsed number),
or a non-numeric string (one that `float(...)` rejects).  Timestamps are
modelled at two levels: a field-level `PyDateTime` record for the string
rendering/parsing logic of `parse_timestamp` and `strftime`, and an
instant-level model (microseconds since a fixed epoch, tagged with the
storage encoding, string vs. native datetime) for the range-filter and
query logic, where string rendering at `%Y-%m-%dT%H:%M:%S` precision is
represented by truncation of the instant to whole seconds.
-/

namespace PD20

/-- A Python value stored under a sensor key in `sensorData`.
`vNone` is an explicit `None`/null; `vNum q` a numeric value; `vStrNum q` a
string accepted by `float(...)` with numeric value `q`; `vStrBad` a string
rejected by `float(...)`. -/
inductive SensorValue where
  | vNone : SensorValue
  | vNum (q : ℚ) : SensorValue
  | vStrNum (q : ℚ) : SensorValue
  | vStrBad : SensorValue
deriving DecidableEq, Repr

/-- Result of Python `float(value)` on a stored sensor value: `none` when the
call raises (`None` input or a non-numeric string), `some q` otherwise.
Models the `try: numeric_value = float(value)` block of `check_for_anomaly`
(processData.py lines 53-63) together with the preceding `value is None` skip. -/
def coerce : SensorValue → Option ℚ
  | SensorValue.vNone => none
  | SensorValue.vNum q => some q
  | SensorValue.vStrNum q => some q
  | SensorValue.vStrBad => none

/-- A threshold rule `{min: ..., max: ...}`; `rule.get("min")` / `rule.get("max")`
are the two `Option` fields. -/
structure Rule where
  min : Option ℚ
  max : Option ℚ
deriving DecidableEq, Repr

/-- The static `THRESHOLDS` table of processData.py lines 28-36 (duplicated
verbatim in populate_and_process.py lines 27-33); `none` for keys with no rule. -/
def THRESHOLDS : String → Option Rule
  | "flowRate" => some ⟨some 50, some 300⟩
  | "waterLevel" => some ⟨some (1/5), some 5⟩
  | "pH" => some ⟨some (13/2), some 8⟩
  | "turbidity" => some ⟨some 0, some 10⟩
  | "temperature" => some ⟨some 5, some 35⟩
  | _ => none

/-- The `min_val is not None and numeric_value < min_val` test. -/
def minViol (r : Rule) (q : ℚ) : Bool :=
  match r.min with
  | some m => decide (q < m)
  | none => false

/-- The `max_val is not None and numeric_value > max_val` test. -/
def maxViol (r : Rule) (q : ℚ) : Bool :=
  match r.max with
  | some M => decide (M < q)
  | none => false

/-- `check_for_anomaly` of processData.py lines 40-72 (the copy in
populate_and_process.py lines 68-87 is identical up to a diagnostic print):
iterate over the `(key, value)` pairs of `sensorData`, skip keys without a
threshold rule, skip values that `float(...)` cannot coerce (including
explicit `None`s), and append the key when the coerced value is strictly
below `min` or, failing that, strictly above `max`. -/
def check_for_anomaly : List (String × SensorValue) → List String
  | [] => []
  | (k, v) :: rest =>
    match THRESHOLDS k with
    | none => check_for_anomaly rest
    | some rule =>
      match coerce v with
      | none => check_for_anomaly rest
      | some q =>
        if minViol rule q then k :: check_for_anomaly rest
        else if maxViol rule q then k :: check_for_anomaly rest
        else check_for_anomaly rest

/-- The property "this (rule, coerced value) pair is out of range": strictly
below a defined `min`, or strictly above a defined `max`. -/
def anomalousPair (r : Rule) (q : ℚ) : Prop :=
  (∃ m, r.min = some m ∧ q < m) ∨ (∃ M, r.max = some M ∧ M < q)

theorem minViol_iff (r : Rule) (q : ℚ) :
    minViol r q = true ↔ ∃ m, r.min = some m ∧ q < m := by
  cases h : r.min <;> simp [minViol, h]

theorem maxViol_iff (r : Rule) (q : ℚ) :
    maxViol r q = true ↔ ∃ M, r.max = some M ∧ M < q := by
  cases h : r.max <;> simp [maxViol, h]

/-- Boolean version of "this key/value pair gets flagged by the evaluator". -/
def hitB (k : String) (v : SensorValue) : Bool :=
  match THRESHOLDS k with
  | none => false
  | some r =>
    match coerce v with
    | none => false
    | some q => minViol r q || maxViol r q

theorem check_for_anomaly_cons (k : String) (v : SensorValue)
    (rest : List (String × SensorValue)) :
    check_for_anomaly ((k, v) :: rest) =
      (if hitB k v then [k] else []) ++ check_for_anomaly rest := by
  cases hth : THRESHOLDS k with
  | none => simp [check_for_anomaly, hitB, hth]
  | some r =>
    cases hq : coerce v with
    | none => simp [check_for_anomaly, hitB, hth, hq]
    | some q =>
      cases hmv : minViol r q with
      | true => simp [check_for_anomaly, hitB, hth, hq, hmv]
      | false =>
        cases hxv : maxViol r q with
        | true => simp [check_for_anomaly, hitB, hth, hq, hmv, hxv]
        | false => simp [check_for_anomaly, hitB, hth, hq, hmv, hxv]

theorem hitB_iff (k : String) (v : SensorValue) :
    hitB k v = true ↔ ∃ r, THRESHOLDS k = some r ∧
      ∃ q, coerce v = some q ∧ anomalousPair r q := by
  cases hth : THRESHOLDS k with
  | none => simp [hitB, hth]
  | some r =>
    cases hq : coerce v with
    | none => simp [hitB, hth, hq]
    | some q =>
      simp [hitB, hth, hq, anomalousPair, ← minViol_iff, ← maxViol_iff]

theorem mem_check_for_anomaly (sd : List (String × SensorValue)) (k : String) :
    k ∈ check_for_anomaly sd ↔
      ∃ v, (k, v) ∈ sd ∧ ∃ r, THRESHOLDS k = some r ∧
        ∃ q, coerce v = some q ∧ anomalousPair r q := by
  induction sd with
  | nil => simp [check_for_anomaly]
  | cons p rest ih =>
    obtain ⟨k', v'⟩ := p
    rw [check_for_anomaly_cons]
    constructor
    · intro hm
      rcases List.mem_append.mp hm with hl | hr
      · have hkb : k = k' ∧ hitB k' v' = true := by
          cases hb : hitB k' v' with
          | true => simp [hb] at hl; exact ⟨hl, rfl⟩
          | false => simp [hb] at hl
        obtain ⟨rfl, hb⟩ := hkb
        obtain ⟨r, hr', q, hq, hap⟩ := (hitB_iff _ _).mp hb
        exact ⟨v', List.mem_cons_self _ _, r, hr', q, hq, hap⟩
      · obtain ⟨v, hv, hres⟩ := ih.mp hr
        exact ⟨v, List.mem_cons_of_mem _ hv, hres⟩
    · rintro ⟨v, hv, r, hr', q, hq, hap⟩
      rcases List.mem_cons.mp hv with heq | hmem
      · simp only [Prod.mk.injEq] at heq
        obtain ⟨rfl, rfl⟩ := heq
        have hb : hitB k v = true := (hitB_iff _ _).mpr ⟨r, hr', q, hq, hap⟩
        simp [hb]
      · exact List.mem_append.mpr
          (Or.inr (ih.mpr ⟨v, hmem, r, hr', q, hq, hap⟩))

/-- C1: the anomaly evaluator `check_for_anomaly` returns exactly the keys that
have a threshold rule and whose value, after successful numeric coercion, is
strictly below the rule's `min` or strictly above its `max`; keys without a
rule, `None` values, and values `float(...)` rejects are never in the result.
In particular `{"pH": 9.5}` yields `["pH"]` (since `pH.max = 8.0`) and
`{"pH": 7.0}` yields `[]`. -/
theorem check_for_anomaly_exact :
    (∀ (sd : List (String × SensorValue)) (k : String),
      k ∈ check_for_anomaly sd ↔
        ∃ v, (k, v) ∈ sd ∧ ∃ r, THRESHOLDS k = some r ∧
          ∃ q, coerce v = some q ∧ anomalousPair r q)
    ∧ check_for_anomaly [("pH", SensorValue.vNum (19/2))] = ["pH"]
    ∧ check_for_anomaly [("pH", SensorValue.vNum 7)] = [] :=
  ⟨mem_check_for_anomaly, by norm_num [check_for_anomaly, THRESHOLDS, coerce, minViol, maxViol],
    by norm_num [check_for_anomaly, THRESHOLDS, coerce, minViol, maxViol]⟩

/-! ## Store documents and the batch Tagger (processData.py lines 74-124) -/

/-- A stored timestamp: either an ISO-8601 string or a native datetime, each
carrying the instant it denotes as microseconds since a fixed epoch.  The
string rendering at `%Y-%m-%dT%H:%M:%S` precision is represented by
truncation of the instant to whole seconds (`floorSec`). -/
inductive TsRaw where
  | str (i : ℕ)
  | dtv (i : ℕ)
deriving DecidableEq, Repr

/-- A document of the `sensorReadings` collection: Mongo `_id`, `nodeId`,
`timestamp`, `sensorData` mapping, and the two optional anomaly fields
(absent on untagged readings). -/
structure Doc where
  id : ℕ
  nodeId : String
  timestamp : TsRaw
  sensorData : List (String × SensorValue)
  anomaly : Option ℕ
  anomalies : Option (List String)
deriving DecidableEq, Repr

/-- The query `{"anomaly": {"$exists": False}}` (processData.py line 77). -/
def untaggedQ (d : Doc) : Bool := d.anomaly.isNone

/-- `batch_size = 500` (processData.py line 78). -/
def batch_size : ℕ := 500

/-- One `UpdateOne({"_id": doc["_id"]}, {"$set": update_fields})` applied to a
matching document `x`, with `update_fields` computed from the fetched copy `d`
(processData.py lines 96-112): sets `anomalies` to the evaluator's result and
`anomaly` to `1` when that list is non-empty, else `0`. -/
def applyTag (x d : Doc) : Doc :=
  let anomalies := check_for_anomaly d.sensorData
  { x with anomalies := some anomalies,
           anomaly := some (if anomalies.isEmpty then 0 else 1) }

/-- `bulk_write` of one batch: each fetched document's update is applied to
the store document with the same `_id`. -/
def tagStep (s : List Doc) (docs : List Doc) : List Doc :=
  docs.foldl (fun st d => st.map (fun x => if x.id = d.id then applyTag x d else x)) s

/-- Number of documents the tagging query still matches. -/
def countUntagged (s : List Doc) : ℕ := (s.filter untaggedQ).length

/-- The batch tagging loop of processData.py lines 82-124, fuel-indexed:
fetch up to `batch_size` untagged documents, stop when the batch is empty,
bulk-update, and stop after a batch smaller than `batch_size`. -/
def runTaggerAux : ℕ → List Doc → List Doc
  | 0, s => s
  | fuel + 1, s =>
    let docs := (s.filter untaggedQ).take batch_size
    if docs.isEmpty then s
    else
      let s' := tagStep s docs
      if docs.length < batch_size then s' else runTaggerAux fuel s'

/-- The batch Tagger driver.  The `while True` loop of processData.py is run
with fuel `countUntagged s + 1`; `countUntagged_runTaggerAux` below shows this
fuel is never exhausted (each recursing iteration strictly decreases the
number of untagged documents), so this equals the unbounded loop. -/
def runTagger (s : List Doc) : List Doc := runTaggerAux (countUntagged s + 1) s

theorem length_filter_lt_of_mem {α : Type} {p : α → Bool} {x : α} :
    ∀ {l : List α}, x ∈ l → p x = false → (l.filter p).length < l.length := by
  intro l
  induction l with
  | nil => intro h; cases h
  | cons y ys ih =>
    intro hmem hp
    rcases List.mem_cons.mp hmem with rfl | hmem'
    · rw [List.filter_cons, hp]
      exact Nat.lt_succ_of_le (List.length_filter_le _ _)
    · rw [List.filter_cons]
      cases hy : p y with
      | true => simpa using Nat.succ_lt_succ (ih hmem' hp)
      | false => simpa using Nat.lt_succ_of_lt (ih hmem' hp)

theorem filter_untagged_map_one (s : List Doc) (d : Doc) :
    (s.map (fun x => if x.id = d.id then applyTag x d else x)).filter untaggedQ
      = (s.filter untaggedQ).filter (fun x => !(x.id == d.id)) := by
  induction s with
  | nil => rfl
  | cons y ys ih =>
    by_cases hid : y.id = d.id
    · have h1 : untaggedQ (applyTag y d) = false := rfl
      cases hy : untaggedQ y <;>
        simp [List.filter_cons, hid, h1, hy, ih]
    · cases hy : untaggedQ y <;>
        simp [List.filter_cons, hid, hy, ih]

theorem filter_untagged_tagStep (docs : List Doc) :
    ∀ s : List Doc, (tagStep s docs).filter untaggedQ
      = docs.foldl (fun u d => u.filter (fun x => !(x.id == d.id)))
          (s.filter untaggedQ) := by
  induction docs with
  | nil => intro s; rfl
  | cons d ds ih =>
    intro s
    show (tagStep (s.map fun x => if x.id = d.id then applyTag x d else x) ds).filter untaggedQ = _
    rw [ih, filter_untagged_map_one]
    rfl

theorem foldl_filter_ne (docs : List Doc) :
    ∀ u : List Doc, docs.foldl (fun u d => u.filter (fun x => !(x.id == d.id))) u
      = u.filter (fun x => docs.all (fun d => !(x.id == d.id))) := by
  induction docs with
  | nil => intro u; simp
  | cons d ds ih =>
    intro u
    rw [List.foldl_cons, ih, List.filter_filter]
    apply List.filter_congr
    intro x _
    simp [Bool.and_comm]

theorem filter_untagged_tagStep_all (s docs : List Doc) :
    (tagStep s docs).filter untaggedQ
      = (s.filter untaggedQ).filter (fun x => docs.all (fun d => !(x.id == d.id))) := by
  rw [filter_untagged_tagStep, foldl_filter_ne]

theorem tagStep_full_clears (s : List Doc)
    (h : ((s.filter untaggedQ).take batch_size).length < batch_size) :
    countUntagged (tagStep s ((s.filter untaggedQ).take batch_size)) = 0 := by
  have htake : (s.filter untaggedQ).take batch_size = s.filter untaggedQ := by
    apply List.take_of_length_le
    by_contra hlen
    push_neg at hlen
    rw [List.length_take] at h
    omega
  rw [countUntagged, filter_untagged_tagStep_all, htake, List.length_eq_zero,
    List.filter_eq_nil_iff]
  intro x hx
  simp only [List.all_eq_true, Bool.not_eq_eq_eq_not, Bool.not_true, beq_eq_false_iff_ne,
    ne_eq, not_forall]
  exact ⟨x, hx, by simp⟩

theorem tagStep_decreases (s docs : List Doc)
    (hsub : docs = (s.filter untaggedQ).take batch_size) (hne : docs ≠ []) :
    countUntagged (tagStep s docs) < countUntagged s := by
  obtain ⟨d0, ds, rfl⟩ := List.exists_cons_of_ne_nil hne
  have hd0 : d0 ∈ s.filter untaggedQ := by
    have : d0 ∈ (s.filter untaggedQ).take batch_size := by rw [← hsub]; exact List.mem_cons_self _ _
    exact List.mem_of_mem_take this
  rw [countUntagged, countUntagged, filter_untagged_tagStep_all]
  apply length_filter_lt_of_mem hd0
  simp [List.all_cons]

theorem countUntagged_runTaggerAux :
    ∀ (fuel : ℕ) (s : List Doc), countUntagged s < fuel →
      countUntagged (runTaggerAux fuel s) = 0 := by
  intro fuel
  induction fuel with
  | zero => intro s h; exact absurd h (Nat.not_lt_zero _)
  | succ f ih =>
    intro s h
    show countUntagged
      (if ((s.filter untaggedQ).take batch_size).isEmpty then s
       else
        if ((s.filter untaggedQ).take batch_size).length < batch_size then
          tagStep s ((s.filter untaggedQ).take batch_size)
        else runTaggerAux f (tagStep s ((s.filter untaggedQ).take batch_size))) = 0
    by_cases hemp : ((s.filter untaggedQ).take batch_size).isEmpty
    · rw [if_pos hemp]
      have : s.filter untaggedQ = [] := by
        rcases List.eq_nil_or_concat (s.filter untaggedQ) with hnil | ⟨l, a, hcat⟩
        · exact hnil
        · exfalso
          rw [List.isEmpty_iff] at hemp
          have hlen : (s.filter untaggedQ).length ≠ 0 := by
            rw [hcat]; simp
          have : ((s.filter untaggedQ).take batch_size).length = 0 := by rw [hemp]; rfl
          rw [List.length_take] at this
          have : batch_size = 0 ∨ (s.filter untaggedQ).length = 0 := by omega
          rcases this with hb | hl
          · exact absurd hb (by norm_num [batch_size])
          · exact hlen hl
      rw [countUntagged, this]; rfl
    · rw [if_neg hemp]
      have hne : (s.filter untaggedQ).take batch_size ≠ [] := by
        intro hnil; rw [hnil] at hemp; exact hemp rfl
      by_cases hlt : ((s.filter untaggedQ).take batch_size).length < batch_size
      · rw [if_pos hlt]
        exact tagStep_full_clears s hlt
      · rw [if_neg hlt]
        apply ih
        have hdec := tagStep_decreases s _ rfl hne
        omega

theorem runTagger_untagged (s : List Doc) :
    (runTagger s).filter untaggedQ = [] := by
  have h := countUntagged_runTaggerAux (countUntagged s + 1) s (Nat.lt_succ_self _)
  rw [countUntagged, List.length_eq_zero] at h
  exact h

/-- C2: the batch Tagger is idempotent: after one complete run no document
matches the selection query `{"anomaly": {"$exists": False}}` (so the second
run fetches an empty batch, writes nothing, and leaves every field from the
first run unchanged). -/
theorem runTagger_idempotent :
    ∀ s : List Doc, (runTagger s).filter untaggedQ = [] ∧
      runTagger (runTagger s) = runTagger s := by
  intro s
  refine ⟨runTagger_untagged s, ?_⟩
  have h := runTagger_untagged s
  show runTaggerAux (countUntagged (runTagger s) + 1) (runTagger s) = runTagger s
  rw [countUntagged, h]
  show runTaggerAux 1 (runTagger s) = runTagger s
  show (if (((runTagger s).filter untaggedQ).take batch_size).isEmpty then runTagger s
       else _) = runTagger s
  rw [h]
  rfl

/-! ## Anomaly-field coherence (C3) -/

/-- A reading document built by the continuous loop
(populate_and_process.py lines 146-154): sensor data is generated externally
(modelled as the `sensor_data` argument), tagged inline with
`check_for_anomaly`, and `anomaly` is `1 if anomalies else 0`. -/
def mkDoc (node_id : String) (docid : ℕ) (ts : TsRaw)
    (sensor_data : List (String × SensorValue)) : Doc :=
  let anomalies := check_for_anomaly sensor_data
  { id := docid, nodeId := node_id, timestamp := ts, sensorData := sensor_data,
    anomaly := some (if anomalies.isEmpty then 0 else 1), anomalies := some anomalies }

/-- The invariant on a stored reading: either untagged (both anomaly fields
absent) or tagged with `anomaly = 1` exactly when `anomalies` is non-empty. -/
def coherent (d : Doc) : Prop :=
  (d.anomaly = none ∧ d.anomalies = none) ∨
  (∃ l, d.anomalies = some l ∧ d.anomaly = some (if l.isEmpty then 0 else 1))

theorem applyTag_coherent (x d : Doc) : coherent (applyTag x d) :=
  Or.inr ⟨check_for_anomaly d.sensorData, rfl, rfl⟩

theorem tagStep_coherent (docs : List Doc) :
    ∀ s : List Doc, (∀ d ∈ s, coherent d) → ∀ d ∈ tagStep s docs, coherent d := by
  induction docs with
  | nil => intro s hs; exact hs
  | cons d ds ih =>
    intro s hs
    show ∀ x ∈ tagStep (s.map fun x => if x.id = d.id then applyTag x d else x) ds, coherent x
    apply ih
    intro y hy
    obtain ⟨x, hx, rfl⟩ := List.mem_map.mp hy
    by_cases hid : x.id = d.id
    · rw [if_pos hid]; exact applyTag_coherent x d
    · rw [if_neg hid]; exact hs x hx

theorem runTaggerAux_coherent :
    ∀ (fuel : ℕ) (s : List Doc), (∀ d ∈ s, coherent d) →
      ∀ d ∈ runTaggerAux fuel s, coherent d := by
  intro fuel
  induction fuel with
  | zero => intro s hs; exact hs
  | succ f ih =>
    intro s hs
    show ∀ d ∈
      (if ((s.filter untaggedQ).take batch_size).isEmpty then s
       else
        if ((s.filter untaggedQ).take batch_size).length < batch_size then
          tagStep s ((s.filter untaggedQ).take batch_size)
        else runTaggerAux f (tagStep s ((s.filter untaggedQ).take batch_size))), coherent d
    by_cases hemp : ((s.filter untaggedQ).take batch_size).isEmpty
    · rw [if_pos hemp]; exact hs
    · rw [if_neg hemp]
      by_cases hlt : ((s.filter untaggedQ).take batch_size).length < batch_size
      · rw [if_pos hlt]; exact tagStep_coherent _ s hs
      · rw [if_neg hlt]; exact ih _ (tagStep_coherent _ s hs)

/-- C3: every anomaly write of the subsystem sets the two fields together and
coherently.  The batch Tagger's update (`applyTag`) sets
`anomalies = check_for_anomaly(...)` and `anomaly = 1` iff that list is
non-empty (`0` otherwise); the continuous loop's inline tagging (`mkDoc`)
does the same; and a store whose documents all satisfy the invariant (tagged
coherently or carrying neither field) still satisfies it after a full batch
Tagger run. -/
theorem anomaly_fields_coherent :
    (∀ x d : Doc,
       (applyTag x d).anomalies = some (check_for_anomaly d.sensorData) ∧
       ((applyTag x d).anomaly = some 1 ↔ check_for_anomaly d.sensorData ≠ []) ∧
       ((applyTag x d).anomaly = some 0 ↔ check_for_anomaly d.sensorData = []))
    ∧ (∀ (n : String) (i : ℕ) (ts : TsRaw) (sd : List (String × SensorValue)),
       (mkDoc n i ts sd).anomalies = some (check_for_anomaly sd) ∧
       ((mkDoc n i ts sd).anomaly = some 1 ↔ check_for_anomaly sd ≠ []) ∧
       ((mkDoc n i ts sd).anomaly = some 0 ↔ check_for_anomaly sd = []))
    ∧ (∀ s : List Doc, (∀ d ∈ s, coherent d) → ∀ d ∈ runTagger s, coherent d) := by
  have key : ∀ l : List String,
      ((some (if l.isEmpty then 0 else 1) : Option ℕ) = some 1 ↔ l ≠ []) ∧
      ((some (if l.isEmpty then 0 else 1) : Option ℕ) = some 0 ↔ l = []) := by
    intro l; cases l <;> simp
  refine ⟨?_, ?_, ?_⟩
  · intro x d
    exact ⟨rfl, (key (check_for_anomaly d.sensorData)).1,
      (key (check_for_anomaly d.sensorData)).2⟩
  · intro n i ts sd
    exact ⟨rfl, (key (check_for_anomaly sd)).1, (key (check_for_anomaly sd)).2⟩
  · intro s hs
    exact runTaggerAux_coherent _ s hs

/-- Concrete store used by the C3 witness: one untagged reading. -/
def w3store : List Doc := [⟨0, "n", TsRaw.str 0, [], none, none⟩]

/-- Witness for C3: on a concrete one-document untagged store, the invariant
hypothesis holds and the document produced by a full Tagger run is coherent. -/
theorem anomaly_fields_coherent_witness :
    coherent (applyTag ⟨0, "n", TsRaw.str 0, [], none, none⟩
      ⟨0, "n", TsRaw.str 0, [], none, none⟩) ∧
    runTagger w3store = [⟨0, "n", TsRaw.str 0, [], some 0, some []⟩] := by
  constructor
  · have hmem : (⟨0, "n", TsRaw.str 0, [], none, none⟩ : Doc) ∈ w3store :=
      List.mem_cons_self _ _
    have hcoh : ∀ d ∈ w3store, coherent d := by
      intro d hd
      have : d = ⟨0, "n", TsRaw.str 0, [], none, none⟩ := by
        simpa [w3store] using hd
      rw [this]
      exact Or.inl ⟨rfl, rfl⟩
    have := anomaly_fields_coherent.2.2 w3store hcoh
    have hrun : runTagger w3store = [⟨0, "n", TsRaw.str 0, [], some 0, some []⟩] := rfl
    have happ : applyTag (⟨0, "n", TsRaw.str 0, [], none, none⟩ : Doc)
        ⟨0, "n", TsRaw.str 0, [], none, none⟩ =
        ⟨0, "n", TsRaw.str 0, [], some 0, some []⟩ := rfl
    rw [happ]
    apply this
    rw [hrun]
    exact List.mem_cons_self _ _
  · rfl

/-! ## Range resolver (main.py lines 37-96), instant level

Instants are microseconds since a fixed epoch.  `strftime("%Y-%m-%dT%H:%M:%S")`
rendering of a boundary is represented by truncating the instant to a whole
second (`floorSec`); the `.999999Z` upper-bound rendering adds 999999
microseconds to the truncated instant.  `datetime.utcnow()`, read internally
by the source when `use_current_time` is true, is modelled as the explicit
argument `now`. -/

/-- Truncation of an instant to whole seconds: the instant denoted by its
`%Y-%m-%dT%H:%M:%S` rendering. -/
def floorSec (i : ℕ) : ℕ := i / 1000000 * 1000000

/-- Instant-level `parse_timestamp` (main.py lines 37-41): both encodings
denote their carried instant. -/
def parseTsInstant : TsRaw → ℕ
  | TsRaw.str i => i
  | TsRaw.dtv i => i

/-- The named relative durations of `get_time_range_filter` (main.py lines
67-81), in microseconds; an unrecognized name falls back to 10 minutes. -/
def rangeDuration : String → ℕ
  | "10m" => 600000000
  | "30m" => 1800000000
  | "1h" => 3600000000
  | "6h" => 21600000000
  | "24h" => 86400000000
  | "7d" => 604800000000
  | _ => 600000000

/-- A MongoDB timestamp filter as built by main.py: a string-encoded or
datetime-encoded `$gte`/`$lte` pair (or one-sided, or no constraint). -/
inductive TFilter where
  | tnone
  | sGe (lo : ℕ)
  | sLe (hi : ℕ)
  | sRange (lo hi : ℕ)
  | dRange (lo hi : ℕ)
deriving DecidableEq, Repr

/-- `get_time_range_filter` (main.py lines 43-96).  `now` is the value
`datetime.utcnow()` returns at line 59; the string branch renders `$gte` at
second precision and, for `use_current_time`, `$lte` at `.999999` precision,
while the `not use_current_time` string branch reuses the raw latest
timestamp as the `$lte` bound. -/
def get_time_range_filter (latest_ts_raw : TsRaw) (range_type : String)
    (use_current_time : Bool) (now : ℕ) : TFilter :=
  let latest_i := parseTsInstant latest_ts_raw
  let ref_time := if use_current_time then now else latest_i
  let start_i := ref_time - rangeDuration range_type
  match latest_ts_raw with
  | TsRaw.str _ =>
    if use_current_time then TFilter.sRange (floorSec start_i) (floorSec ref_time + 999999)
    else TFilter.sRange (floorSec start_i) latest_i
  | TsRaw.dtv _ =>
    if use_current_time then TFilter.dRange start_i ref_time
    else TFilter.dRange start_i latest_i

/-- Whether a stored timestamp satisfies a filter; MongoDB comparisons are
typed, so a string-encoded bound never matches a datetime value and vice
versa. -/
def matchesT : TFilter → TsRaw → Bool
  | TFilter.tnone, _ => true
  | TFilter.sGe lo, TsRaw.str i => decide (lo ≤ i)
  | TFilter.sGe _, TsRaw.dtv _ => false
  | TFilter.sLe hi, TsRaw.str i => decide (i ≤ hi)
  | TFilter.sLe _, TsRaw.dtv _ => false
  | TFilter.sRange lo hi, TsRaw.str i => decide (lo ≤ i ∧ i ≤ hi)
  | TFilter.sRange _ _, TsRaw.dtv _ => false
  | TFilter.dRange lo hi, TsRaw.dtv i => decide (lo ≤ i ∧ i ≤ hi)
  | TFilter.dRange _ _, TsRaw.str _ => false

/-- C5 counterexample: with identical claimed inputs (latest timestamp,
range name, anchor flag) but two different wall-clock readings, the
`use_current_time` branch of `get_time_range_filter` produces two different
filters — the function reads the clock (line 59) rather than being a pure
function of those three inputs. -/
theorem get_time_range_filter_reads_clock :
    get_time_range_filter (TsRaw.dtv 0) "10m" true 700000000 ≠
      get_time_range_filter (TsRaw.dtv 0) "10m" true 800000000 := by
  decide

/-- C5 amended: with the wall clock passed as an explicit argument,
`get_time_range_filter` is deterministic; its output is independent of the
clock exactly when `use_current_time` is false; and in the native-datetime
encoding the produced boundaries satisfy `end - start = duration` exactly for
both anchor policies, while the string encoding truncates the `$gte` bound to
whole seconds. -/
theorem get_time_range_filter_pure :
    (∀ (latest : TsRaw) (range : String) (now now' : ℕ),
      get_time_range_filter latest range false now =
        get_time_range_filter latest range false now')
    ∧ (∀ (i : ℕ) (range : String) (now : ℕ), rangeDuration range ≤ i →
      get_time_range_filter (TsRaw.dtv i) range false now =
        TFilter.dRange (i - rangeDuration range) i ∧
      i - (i - rangeDuration range) = rangeDuration range)
    ∧ (∀ (i now : ℕ) (range : String), rangeDuration range ≤ now →
      get_time_range_filter (TsRaw.dtv i) range true now =
        TFilter.dRange (now - rangeDuration range) now ∧
      now - (now - rangeDuration range) = rangeDuration range)
    ∧ (∀ (i : ℕ) (range : String) (now : ℕ),
      get_time_range_filter (TsRaw.str i) range false now =
        TFilter.sRange (floorSec (i - rangeDuration range)) i) := by
  refine ⟨?_, ?_, ?_, ?_⟩
  · intro latest range now now'
    cases latest <;> simp [get_time_range_filter]
  · intro i range now h
    exact ⟨by simp [get_time_range_filter, parseTsInstant], by omega⟩
  · intro i now range h
    exact ⟨by simp [get_time_range_filter, parseTsInstant], by omega⟩
  · intro i range now
    simp [get_time_range_filter, parseTsInstant]

/-- Witness for C5's amended theorem at a concrete input: a 10-minute window
anchored to a datetime-encoded latest sample at instant 10^9 µs. -/
theorem get_time_range_filter_pure_witness :
    get_time_range_filter (TsRaw.dtv 1000000000) "10m" false 0 =
      TFilter.dRange 400000000 1000000000 := by
  have h := (get_time_range_filter_pure.2.1 1000000000 "10m" 0
    (by norm_num [rangeDuration])).1
  simpa [rangeDuration] using h

/-! ## Readings endpoint `get_node_readings` (main.py lines 219-281) -/

/-- BSON ordering on stored timestamps (strings sort before native dates;
within an encoding, by instant). -/
def tsLe (a b : TsRaw) : Prop :=
  match a, b with
  | TsRaw.str i, TsRaw.str j => i ≤ j
  | TsRaw.str _, TsRaw.dtv _ => True
  | TsRaw.dtv _, TsRaw.str _ => False
  | TsRaw.dtv i, TsRaw.dtv j => i ≤ j

instance tsLe.dec : DecidableRel tsLe := fun a b => by
  cases a <;> cases b <;> simp only [tsLe] <;> infer_instance

/-- Ascending `sort("timestamp", 1)` order on documents. -/
def docLe (a b : Doc) : Prop := tsLe a.timestamp b.timestamp

instance docLe.dec : DecidableRel docLe := fun a b =>
  inferInstanceAs (Decidable (tsLe a.timestamp b.timestamp))

/-- Descending `sort=[("timestamp", -1)]` order on documents. -/
def docGe (a b : Doc) : Prop := tsLe b.timestamp a.timestamp

instance docGe.dec : DecidableRel docGe := fun a b =>
  inferInstanceAs (Decidable (tsLe b.timestamp a.timestamp))

/-- `find_one({"nodeId": node_id}, sort=[("timestamp", -1)])`: the stored
document for the node with the greatest timestamp, if any. -/
def latestDoc (store : List Doc) (node_id : String) : Option Doc :=
  ((store.filter (fun d => decide (d.nodeId = node_id))).insertionSort docGe).head?

/-- Python `dict.get` on a sensor map. -/
def alookup (k : String) (l : List (String × SensorValue)) : Option SensorValue :=
  (l.find? (fun p => decide (p.1 = k))).map Prod.snd

/-- A reading as returned by the endpoint (the `SensorReading` response
model of main.py lines 101-106; `anomaly` defaults to 0 when absent). -/
structure Reading where
  nodeId : String
  timestamp : TsRaw
  sensorData : List (String × SensorValue)
  anomaly : ℕ
  anomalies : Option (List String)
deriving DecidableEq, Repr

/-- Resolution of the timestamp filter (main.py lines 242-262): explicit
`start_time`/`end_time` datetimes are rendered to strings (second-precision
`$gte`, `.999999` `$lte`); otherwise a relative `range` is resolved against
the node's latest document (`none` here models the early `return []` when the
node has no documents), and `"all"` adds no time filter. -/
def resolveTF (store : List Doc) (node_id range : String)
    (start_time end_time : Option ℕ) (fromNow : Bool) (now : ℕ) : Option TFilter :=
  match start_time, end_time with
  | some st, some et => some (TFilter.sRange (floorSec st) (floorSec et + 999999))
  | some st, none => some (TFilter.sGe (floorSec st))
  | none, some et => some (TFilter.sLe (floorSec et + 999999))
  | none, none =>
    if range = "all" then some TFilter.tnone
    else
      match latestDoc store node_id with
      | none => none
      | some d => some (get_time_range_filter d.timestamp range fromNow now)

/-- The post-fetch projection and discarding step (main.py lines 264-280):
with a requested sensor the projected map is `{sensor: value?}` and the
reading is dropped when the value is absent or `None`; without one, readings
with an empty sensor map are dropped. -/
def postFilter (node_id : String) (sensor : Option String) (r : Doc) : Option Reading :=
  match sensor with
  | some s =>
    match alookup s r.sensorData with
    | none => none
    | some v =>
      if v = SensorValue.vNone then none
      else some ⟨node_id, r.timestamp, [(s, v)], r.anomaly.getD 0, r.anomalies⟩
  | none =>
    if r.sensorData.isEmpty then none
    else some ⟨node_id, r.timestamp, r.sensorData, r.anomaly.getD 0, r.anomalies⟩

/-- Body of `get_node_readings` after the existence check: resolve the
filter, fetch matching documents sorted ascending by timestamp capped at
2000 (`to_list(2000)`), and post-filter. -/
def gnrBody (store : List Doc) (node_id range : String) (sensor : Option String)
    (start_time end_time : Option ℕ) (fromNow : Bool) (now : ℕ) : List Reading :=
  match resolveTF store node_id range start_time end_time fromNow now with
  | none => []
  | some tf =>
    (((store.filter (fun d => decide (d.nodeId = node_id) && matchesT tf d.timestamp)).insertionSort
        docLe).take 2000).filterMap (postFilter node_id sensor)

/-- `get_node_readings` (main.py lines 219-281): 404 when no reading document
carries the requested `nodeId`, otherwise the filtered, capped, post-filtered
list. -/
def get_node_readings (store : List Doc) (node_id range : String)
    (sensor : Option String) (start_time end_time : Option ℕ) (fromNow : Bool)
    (now : ℕ) : Except ℕ (List Reading) :=
  match store.find? (fun d => decide (d.nodeId = node_id)) with
  | none => Except.error 404
  | some _ =>
    Except.ok (gnrBody store node_id range sensor start_time end_time fromNow now)

/-- Concrete store for the C6 counterexample: node `n1` is registered (it has
one reading) but that reading lies outside the requested 10-minute window. -/
def c6store : List Doc := [⟨0, "n1", TsRaw.str 0, [("pH", SensorValue.vNum 7)], none, none⟩]

/-- C6 counterexample: a registered subject with zero documents matching the
time filter yields an empty 200 list, not a 404: `get_node_readings` on
`c6store` with range `10m` anchored at instant 10^9 µs returns `ok []`,
refuting the claim that this case also produces `NoSuchSubject`. -/
theorem get_node_readings_empty_window_ok :
    get_node_readings c6store "n1" "10m" none none none true 1000000000 =
      Except.ok [] ∧
    get_node_readings c6store "n1" "10m" none none none true 1000000000 ≠
      Except.error 404 := by
  constructor
  · rfl
  · intro h
    rw [show get_node_readings c6store "n1" "10m" none none none true 1000000000 =
      Except.ok [] from rfl] at h
    cases h

/-- C6 amended: the endpoint fails (with 404) exactly when the subject is
unknown, i.e. no reading document carries its `nodeId`; a registered subject
always gets an `ok` list (possibly empty) regardless of the filter. -/
theorem get_node_readings_404_iff :
    ∀ (store : List Doc) (node_id range : String) (sensor : Option String)
      (st et : Option ℕ) (fromNow : Bool) (now : ℕ),
      ((∃ e, get_node_readings store node_id range sensor st et fromNow now =
          Except.error e) ↔ ∀ d ∈ store, d.nodeId ≠ node_id) ∧
      ((∀ d ∈ store, d.nodeId ≠ node_id) →
        get_node_readings store node_id range sensor st et fromNow now =
          Except.error 404) := by
  intro store node_id range sensor st et fromNow now
  cases hf : store.find? (fun d => decide (d.nodeId = node_id)) with
  | none =>
    have hnone : ∀ d ∈ store, d.nodeId ≠ node_id := by
      intro d hd
      have := List.find?_eq_none.mp hf d hd
      simpa using this
    refine ⟨⟨fun _ => hnone, fun _ => ⟨404, ?_⟩⟩, fun _ => ?_⟩
    · simp [get_node_readings, hf]
    · simp [get_node_readings, hf]
  | some d0 =>
    have hmem : d0 ∈ store := List.mem_of_find?_eq_some hf
    have hid : d0.nodeId = node_id := by
      have := List.find?_some hf
      simpa using this
    have hnot : ¬ ∀ d ∈ store, d.nodeId ≠ node_id := fun hall => hall d0 hmem hid
    refine ⟨⟨fun ⟨e, he⟩ => ?_, fun hall => absurd hall hnot⟩, fun hall => absurd hall hnot⟩
    exfalso
    rw [get_node_readings, hf] at he
    cases he

/-- Witness for C6's amended theorem at a concrete input: the empty store
knows no subject, so the endpoint 404s. -/
theorem get_node_readings_404_iff_witness :
    get_node_readings [] "z" "all" none none none true 0 =
      Except.error 404 :=
  (get_node_readings_404_iff [] "z" "all" none none none true 0).2
    (by intro d hd; cases hd)

/-- C7: post-fetch filtering: when a sensor is requested every returned
reading's map is exactly `{sensor: value}` with a non-`None` value; when no
sensor is requested, returned readings have a non-empty sensor map. -/
theorem readings_contain_requested_sensor :
    (∀ (store : List Doc) (node_id range : String) (s : String)
      (st et : Option ℕ) (fromNow : Bool) (now : ℕ) (rs : List Reading),
      get_node_readings store node_id range (some s) st et fromNow now =
        Except.ok rs →
      ∀ r ∈ rs, ∃ v, r.sensorData = [(s, v)] ∧ v ≠ SensorValue.vNone)
    ∧ (∀ (store : List Doc) (node_id range : String)
      (st et : Option ℕ) (fromNow : Bool) (now : ℕ) (rs : List Reading),
      get_node_readings store node_id range none st et fromNow now =
        Except.ok rs →
      ∀ r ∈ rs, r.sensorData ≠ []) := by
  constructor
  · intro store node_id range s st et fromNow now rs hok r hr
    cases hf : store.find? (fun d => decide (d.nodeId = node_id)) with
    | none => rw [get_node_readings, hf] at hok; cases hok
    | some d0 =>
      rw [get_node_readings, hf] at hok
      have hrs : rs = gnrBody store node_id range (some s) st et fromNow now := by
        cases hok; rfl
      rw [hrs] at hr
      rw [gnrBody] at hr
      cases htf : resolveTF store node_id range st et fromNow now with
      | none => rw [htf] at hr; cases hr
      | some tf =>
        rw [htf] at hr
        obtain ⟨x, _, hpx⟩ := List.mem_filterMap.mp hr
        rw [postFilter] at hpx
        cases hl : alookup s x.sensorData with
        | none => rw [hl] at hpx; cases hpx
        | some v =>
          rw [hl] at hpx
          dsimp only at hpx
          by_cases hv : v = SensorValue.vNone
          · rw [if_pos hv] at hpx; cases hpx
          · rw [if_neg hv] at hpx
            cases hpx
            exact ⟨v, rfl, hv⟩
  · intro store node_id range st et fromNow now rs hok r hr
    cases hf : store.find? (fun d => decide (d.nodeId = node_id)) with
    | none => rw [get_node_readings, hf] at hok; cases hok
    | some d0 =>
      rw [get_node_readings, hf] at hok
      have hrs : rs = gnrBody store node_id range none st et fromNow now := by
        cases hok; rfl
      rw [hrs] at hr
      rw [gnrBody] at hr
      cases htf : resolveTF store node_id range st et fromNow now with
      | none => rw [htf] at hr; cases hr
      | some tf =>
        rw [htf] at hr
        obtain ⟨x, _, hpx⟩ := List.mem_filterMap.mp hr
        rw [postFilter] at hpx
        by_cases he : x.sensorData.isEmpty
        · rw [if_pos he] at hpx; cases hpx
        · rw [if_neg he] at hpx
          cases hpx
          intro hnil
          have hx : x.sensorData = [] := hnil
          exact he (by simp [hx])

/-- Witness for C7 at a concrete input: a one-document store queried with
`range=all` and `sensor=pH` returns exactly one reading, and the theorem
applies to it. -/
theorem readings_contain_requested_sensor_witness :
    get_node_readings [⟨0, "n1", TsRaw.str 5, [("pH", SensorValue.vNum 7)], none, none⟩]
        "n1" "all" (some "pH") none none true 0 =
      Except.ok [⟨"n1", TsRaw.str 5, [("pH", SensorValue.vNum 7)], 0, none⟩] ∧
    ∃ v, (Reading.mk "n1" (TsRaw.str 5) [("pH", SensorValue.vNum 7)] 0 none).sensorData
        = [("pH", v)] ∧ v ≠ SensorValue.vNone := by
  constructor
  · rfl
  · exact readings_contain_requested_sensor.1
      [⟨0, "n1", TsRaw.str 5, [("pH", SensorValue.vNum 7)], none, none⟩]
      "n1" "all" "pH" none none true 0
      [⟨"n1", TsRaw.str 5, [("pH", SensorValue.vNum 7)], 0, none⟩]
      rfl _ (List.mem_singleton.mpr rfl)

/-! ## Cross-subject pivot `get_data_for_sensor` (main.py lines 284-301) -/

/-- Strict BSON ordering on stored timestamps. -/
def tsLt (a b : TsRaw) : Prop :=
  match a, b with
  | TsRaw.str i, TsRaw.str j => i < j
  | TsRaw.str _, TsRaw.dtv _ => True
  | TsRaw.dtv _, TsRaw.str _ => False
  | TsRaw.dtv i, TsRaw.dtv j => i < j

instance : IsTotal TsRaw tsLe :=
  ⟨by intro a b; cases a <;> cases b <;> simp [tsLe] <;> omega⟩

instance : IsTrans TsRaw tsLe :=
  ⟨by intro a b c; cases a <;> cases b <;> cases c <;> simp [tsLe] <;> omega⟩

theorem tsLt_of_tsLe_ne {a b : TsRaw} (hle : tsLe a b) (hne : a ≠ b) : tsLt a b := by
  cases a <;> cases b <;> simp_all [tsLe, tsLt, TsRaw.str.injEq, TsRaw.dtv.injEq] <;> omega

/-- The `$match` predicate `{"sensorData.<name>": {"$exists": True, "$ne": None}}`. -/
def matchSensor (sname : String) (d : Doc) : Bool :=
  match alookup sname d.sensorData with
  | some v => decide (v ≠ SensorValue.vNone)
  | none => false

/-- `find_one` for the latest document carrying the sensor (main.py line 294). -/
def sensorLatest (store : List Doc) (sname : String) : Option Doc :=
  ((store.filter (matchSensor sname)).insertionSort docGe).head?

/-- The set of documents entering the aggregation pipeline: sensor present
and non-null, plus the resolved time filter when `range` is not `"all"`
(`none` models the early `return []` when no document carries the sensor). -/
def pivotMatched (store : List Doc) (sname range : String) (fromNow : Bool)
    (now : ℕ) : Option (List Doc) :=
  if range = "all" then some (store.filter (matchSensor sname))
  else
    match sensorLatest store sname with
    | none => none
    | some d =>
      some (store.filter (fun x => matchSensor sname x &&
        matchesT (get_time_range_filter d.timestamp range fromNow now) x.timestamp))

/-- One pivoted output row: the group timestamp merged with one field per
reporting node (`$mergeObjects` of `nodesData` and `{timestamp: _id}`). -/
structure Row where
  timestamp : TsRaw
  cols : List (String × SensorValue)
deriving DecidableEq, Repr

/-- Object-key insertion as performed by `$arrayToObject`: a later duplicate
key overwrites the earlier value. -/
def upsert (acc : List (String × SensorValue)) (k : String) (v : SensorValue) :
    List (String × SensorValue) :=
  if acc.any (fun p => decide (p.1 = k)) then
    acc.map (fun p => if p.1 = k then (k, v) else p)
  else acc ++ [(k, v)]

/-- The pushed value `$sensorData.<name>` of one matched document. -/
def valOf (sname : String) (d : Doc) : SensorValue :=
  (alookup sname d.sensorData).getD SensorValue.vNone

/-- The row grouped at timestamp `t`: one column per node that reported at
`t`, built in document order (`$push` then `$arrayToObject`). -/
def rowFor (docs : List Doc) (sname : String) (t : TsRaw) : Row :=
  ⟨t, (docs.filter (fun d => decide (d.timestamp = t))).foldl
    (fun acc d => upsert acc d.nodeId (valOf sname d)) []⟩

/-- The aggregation pipeline of main.py line 299 over the matched documents:
`$group` by timestamp, `$arrayToObject`/`$mergeObjects` into rows, and
`$sort {timestamp: 1}`. -/
def pivotRows (docs : List Doc) (sname : String) : List Row :=
  (((docs.map Doc.timestamp).dedup).insertionSort tsLe).map (rowFor docs sname)

/-- `get_data_for_sensor` (main.py lines 284-301): resolve the match set,
pivot, and return at most 2000 rows (`to_list(2000)`). -/
def get_data_for_sensor (store : List Doc) (sname range : String)
    (fromNow : Bool) (now : ℕ) : List Row :=
  match pivotMatched store sname range fromNow now with
  | none => []
  | some docs => (pivotRows docs sname).take 2000

/-- Keys of an association list. -/
def keysOf (l : List (String × SensorValue)) : List String := l.map Prod.fst

theorem alookup_isSome_iff (n : String) (l : List (String × SensorValue)) :
    (∃ v, alookup n l = some v) ↔ n ∈ keysOf l := by
  induction l with
  | nil => simp [alookup, keysOf]
  | cons p rest ih =>
    by_cases hp : p.1 = n
    · have hfind : alookup n (p :: rest) = some p.2 := by
        rw [alookup, List.find?_cons_of_pos _ (by simp [hp])]
        rfl
      simp [hfind, keysOf, hp]
    · have hskip : alookup n (p :: rest) = alookup n rest := by
        rw [alookup, List.find?_cons_of_neg _ (by simp [hp])]
        rfl
      rw [hskip, ih]
      simp [keysOf, List.mem_cons, Ne.symm hp]

theorem keysOf_upsert (acc : List (String × SensorValue)) (k : String)
    (v : SensorValue) (n : String) :
    n ∈ keysOf (upsert acc k v) ↔ n = k ∨ n ∈ keysOf acc := by
  rw [upsert]
  by_cases hany : acc.any (fun p => decide (p.1 = k))
  · rw [if_pos hany]
    have hk : k ∈ keysOf acc := by
      obtain ⟨p, hp, hpk⟩ := List.any_eq_true.mp hany
      simp only [decide_eq_true_eq] at hpk
      exact hpk ▸ List.mem_map_of_mem Prod.fst hp
    have hkeys : keysOf (acc.map (fun p => if p.1 = k then (k, v) else p)) = keysOf acc := by
      rw [keysOf, keysOf, List.map_map]
      apply List.map_congr_left
      intro p _
      by_cases hp : p.1 = k
      · simp [hp]
      · simp [hp]
    rw [hkeys]
    constructor
    · exact Or.inr
    · rintro (rfl | h)
      · exact hk
      · exact h
  · rw [if_neg hany]
    simp [keysOf, or_comm]

theorem keysOf_foldl_upsert (sname : String) (l : List Doc) :
    ∀ (acc : List (String × SensorValue)) (n : String),
      n ∈ keysOf (l.foldl (fun acc d => upsert acc d.nodeId (valOf sname d)) acc) ↔
        n ∈ keysOf acc ∨ n ∈ l.map Doc.nodeId := by
  induction l with
  | nil => intro acc n; simp
  | cons d ds ih =>
    intro acc n
    rw [List.foldl_cons, ih, keysOf_upsert]
    simp only [List.map_cons, List.mem_cons]
    tauto

/-- C8: determinism and shape of the per-sensor pivot: rows are strictly
ascending by (BSON) timestamp, there is exactly one row per distinct
timestamp observed among the matched documents, and a row carries a column
for node `n` exactly when some matched document of that timestamp was
reported by `n` (subjects that did not report are absent, not null-filled;
two subjects at the same timestamp merge into the single row of that
timestamp). -/
theorem pivot_rows_spec :
    ∀ (docs : List Doc) (sname : String),
      (pivotRows docs sname).Pairwise (fun r1 r2 => tsLt r1.timestamp r2.timestamp) ∧
      (∀ t : TsRaw, (∃ row ∈ pivotRows docs sname, row.timestamp = t) ↔
        ∃ d ∈ docs, d.timestamp = t) ∧
      (∀ row ∈ pivotRows docs sname, ∀ n : String,
        (∃ v, alookup n row.cols = some v) ↔
          ∃ d ∈ docs, d.timestamp = row.timestamp ∧ d.nodeId = n) := by
  intro docs sname
  refine ⟨?_, ?_, ?_⟩
  · have hsorted : ((docs.map Doc.timestamp).dedup.insertionSort tsLe).Sorted tsLe :=
      List.sorted_insertionSort tsLe _
    have hnodup : ((docs.map Doc.timestamp).dedup.insertionSort tsLe).Nodup :=
      (List.perm_insertionSort tsLe _).symm.nodup (List.nodup_dedup _)
    have hand : ((docs.map Doc.timestamp).dedup.insertionSort tsLe).Pairwise
        (fun a b => tsLe a b ∧ a ≠ b) := hsorted.and hnodup
    have hlt : ((docs.map Doc.timestamp).dedup.insertionSort tsLe).Pairwise tsLt :=
      hand.imp (fun h => tsLt_of_tsLe_ne h.1 h.2)
    rw [pivotRows, List.pairwise_map]
    exact hlt.imp (fun h => h)
  · intro t
    simp only [pivotRows, List.mem_map]
    constructor
    · rintro ⟨row, ⟨u, hu, rfl⟩, ht⟩
      have : u = t := ht
      subst this
      have hu' : u ∈ (docs.map Doc.timestamp).dedup := by
        have := (List.perm_insertionSort tsLe (docs.map Doc.timestamp).dedup).mem_iff.mp hu
        exact this
      obtain ⟨d, hd, rfl⟩ := List.mem_map.mp (List.mem_dedup.mp hu')
      exact ⟨d, hd, rfl⟩
    · rintro ⟨d, hd, rfl⟩
      refine ⟨rowFor docs sname d.timestamp, ⟨d.timestamp, ?_, rfl⟩, rfl⟩
      exact (List.perm_insertionSort tsLe _).symm.mem_iff.mp
        (List.mem_dedup.mpr (List.mem_map_of_mem Doc.timestamp hd))
  · intro row hrow n
    obtain ⟨t, _, rfl⟩ := List.mem_map.mp hrow
    rw [show (rowFor docs sname t).cols = (docs.filter (fun d => decide (d.timestamp = t))).foldl
      (fun acc d => upsert acc d.nodeId (valOf sname d)) [] from rfl]
    rw [alookup_isSome_iff, keysOf_foldl_upsert]
    simp only [keysOf, List.map_nil, List.not_mem_nil, false_or, List.mem_map,
      List.mem_filter, decide_eq_true_eq]
    constructor
    · rintro ⟨d, ⟨hd, hdt⟩, rfl⟩
      exact ⟨d, hd, hdt, rfl⟩
    · rintro ⟨d, hd, hdt, rfl⟩
      exact ⟨d, ⟨hd, hdt⟩, rfl⟩

/-- Concrete matched set for the C8 witness: two subjects report
`temperature` at the same timestamp with values 20.1 and 21.3. -/
def c8docs : List Doc :=
  [⟨0, "n1", TsRaw.str 100, [("temperature", SensorValue.vNum (201/10))], none, none⟩,
   ⟨1, "n2", TsRaw.str 100, [("temperature", SensorValue.vNum (213/10))], none, none⟩]

/-- Witness for C8: the pivot of `c8docs` is a single row at the shared
timestamp carrying both subject columns, and the theorem's column
characterization applies to it. -/
theorem pivot_rows_spec_witness :
    pivotRows c8docs "temperature" =
      [⟨TsRaw.str 100, [("n1", SensorValue.vNum (201/10)),
        ("n2", SensorValue.vNum (213/10))]⟩] ∧
    (∃ v, alookup "n1" (Row.mk (TsRaw.str 100)
      [("n1", SensorValue.vNum (201/10)), ("n2", SensorValue.vNum (213/10))]).cols
      = some v) ∧
    (∃ v, alookup "n2" (Row.mk (TsRaw.str 100)
      [("n1", SensorValue.vNum (201/10)), ("n2", SensorValue.vNum (213/10))]).cols
      = some v) := by
  have hpiv : pivotRows c8docs "temperature" =
      [⟨TsRaw.str 100, [("n1", SensorValue.vNum (201/10)),
        ("n2", SensorValue.vNum (213/10))]⟩] := rfl
  have hmem : (Row.mk (TsRaw.str 100)
      [("n1", SensorValue.vNum (201/10)), ("n2", SensorValue.vNum (213/10))]) ∈
      pivotRows c8docs "temperature" := by
    rw [hpiv]
    exact List.mem_singleton.mpr rfl
  refine ⟨hpiv, ?_, ?_⟩
  · apply ((pivot_rows_spec c8docs "temperature").2.2 _ hmem "n1").mpr
    exact ⟨⟨0, "n1", TsRaw.str 100, [("temperature", SensorValue.vNum (201/10))], none, none⟩,
      List.mem_cons_self _ _, rfl, rfl⟩
  · apply ((pivot_rows_spec c8docs "temperature").2.2 _ hmem "n2").mpr
    exact ⟨⟨1, "n2", TsRaw.str 100, [("temperature", SensorValue.vNum (213/10))], none, none⟩,
      List.mem_cons_of_mem _ (List.mem_cons_self _ _), rfl, rfl⟩

/-! ## Nodes listing (main.py lines 162-216) and result-size caps (C10) -/

/-- A node summary as produced by the `$group`/`$project` aggregation of
`get_all_nodes_with_status`. -/
structure NodeInfo where
  nodeId : String
  sensors : List String
  lastSeen : Option TsRaw
  status : String
deriving DecidableEq, Repr

/-- Lexicographic `$sort {_id: 1}` order on node ids. -/
def strLe (a b : String) : Prop := a ≤ b

instance strLe.dec : DecidableRel strLe := fun a b =>
  inferInstanceAs (Decidable (a ≤ b))

/-- `{"$max": "$timestamp"}` over a node's documents. -/
def maxTs (l : List Doc) : Option TsRaw :=
  ((l.insertionSort docGe).head?).map Doc.timestamp

/-- One day in microseconds (`timedelta(days=1)`). -/
def day_us : ℕ := 86400000000

/-- `get_all_nodes_with_status` (main.py lines 162-216): group readings by
`nodeId`, collect the union of sensor keys, take the max timestamp, sort by
id, project an Active/Inactive status (the `$gte` compare against
`utcnow() - 1 day`, a native date, is false for string-encoded timestamps
under BSON type ordering), and return at most 100 nodes (`to_list(100)`). -/
def get_all_nodes_with_status (store : List Doc) (now : ℕ) : List NodeInfo :=
  let ids := ((store.map Doc.nodeId).dedup).insertionSort strLe
  (ids.map (fun nid =>
    let docs := store.filter (fun d => decide (d.nodeId = nid))
    let lastSeen := maxTs docs
    { nodeId := nid,
      sensors := ((docs.map (fun d => keysOf d.sensorData)).flatten).dedup,
      lastSeen := lastSeen,
      status :=
        match lastSeen with
        | some t => if tsLe (TsRaw.dtv (now - day_us)) t then "Active" else "Inactive"
        | none => "Inactive" })).take 100

/-- C10: the implicit result-size caps: the readings endpoint returns at most
2000 readings (`to_list(2000)` after an ascending-timestamp sort, silently
truncating), the per-sensor pivot returns at most 2000 rows, and the nodes
listing returns at most 100 subjects. -/
theorem result_size_caps :
    (∀ (store : List Doc) (node_id range : String) (sensor : Option String)
      (st et : Option ℕ) (fromNow : Bool) (now : ℕ) (rs : List Reading),
      get_node_readings store node_id range sensor st et fromNow now =
        Except.ok rs → rs.length ≤ 2000)
    ∧ (∀ (store : List Doc) (sname range : String) (fromNow : Bool) (now : ℕ),
      (get_data_for_sensor store sname range fromNow now).length ≤ 2000)
    ∧ (∀ (store : List Doc) (now : ℕ),
      (get_all_nodes_with_status store now).length ≤ 100) := by
  refine ⟨?_, ?_, ?_⟩
  · intro store node_id range sensor st et fromNow now rs hok
    cases hf : store.find? (fun d => decide (d.nodeId = node_id)) with
    | none => rw [get_node_readings, hf] at hok; cases hok
    | some d0 =>
      rw [get_node_readings, hf] at hok
      have hrs : rs = gnrBody store node_id range sensor st et fromNow now := by
        cases hok; rfl
      rw [hrs, gnrBody]
      cases htf : resolveTF store node_id range st et fromNow now with
      | none => simp
      | some tf =>
        exact le_trans (List.length_filterMap_le _ _) (List.length_take_le _ _)
  · intro store sname range fromNow now
    rw [get_data_for_sensor]
    cases hm : pivotMatched store sname range fromNow now with
    | none => simp
    | some docs => exact List.length_take_le _ _
  · intro store now
    exact List.length_take_le _ _

/-- Witness for C10's readings-cap implication at a concrete input: a
one-document store queried with `range=all` returns one reading, and the cap
theorem applies to it. -/
theorem result_size_caps_witness :
    get_node_readings [⟨0, "nx", TsRaw.str 9, [("pH", SensorValue.vNum 7)], none, none⟩]
        "nx" "all" none none none true 0 =
      Except.ok [⟨"nx", TsRaw.str 9, [("pH", SensorValue.vNum 7)], 0, none⟩] ∧
    ([(⟨"nx", TsRaw.str 9, [("pH", SensorValue.vNum 7)], 0, none⟩ : Reading)]).length ≤ 2000 := by
  constructor
  · rfl
  · exact result_size_caps.1
      [⟨0, "nx", TsRaw.str 9, [("pH", SensorValue.vNum 7)], none, none⟩]
      "nx" "all" none none none true 0
      [⟨"nx", TsRaw.str 9, [("pH", SensorValue.vNum 7)], 0, none⟩] rfl

/-! ## Field-level timestamp normalizer (main.py lines 37-41, 83-96)

`parse_timestamp` and the two `strftime` renderings are modelled over a
calendar-field record, with strings as `List Char`.  The modelled
`fromisoformat` grammar covers the shapes this system produces and stores:
`YYYY-MM-DDTHH:MM:SS`, optional `.ffffff` fraction, optional `±HH:MM` offset
(the `Z` suffix is first rewritten to `+00:00` by `replace`, exactly as in
the source); field-range validation is modelled for the fixed bounds
(month 1-12, day 1-31, hour/minute/second ranges) without per-month day
counts. -/

/-- A Python `datetime`: calendar fields plus an optional fixed-offset
timezone in minutes (`none` = naive, `some 0` = UTC). -/
structure PyDateTime where
  year : ℕ
  month : ℕ
  day : ℕ
  hour : ℕ
  minute : ℕ
  second : ℕ
  microsecond : ℕ
  tzMinutes : Option ℤ
deriving DecidableEq, Repr

/-- Field bounds guaranteed by a real `datetime` value. -/
def ValidDT (d : PyDateTime) : Prop :=
  0 < d.year ∧ d.year < 10000 ∧ 1 ≤ d.month ∧ d.month ≤ 12 ∧ 1 ≤ d.day ∧
    d.day ≤ 31 ∧ d.hour < 24 ∧ d.minute < 60 ∧ d.second < 60 ∧
    d.microsecond < 1000000

/-- The character for one decimal digit. -/
def digitChar (d : ℕ) : Char := Char.ofNat (48 + d)

/-- Zero-padded fixed-width decimal rendering (most significant digit
first), as produced by `strftime`'s `%Y`/`%m`/… directives. -/
def padNat : ℕ → ℕ → List Char
  | 0, _ => []
  | k + 1, n => digitChar (n / 10 ^ k) :: padNat k (n % 10 ^ k)

/-- Read exactly `k` decimal digits, accumulating their value. -/
def readDigits : ℕ → ℕ → List Char → Option (ℕ × List Char)
  | 0, acc, cs => some (acc, cs)
  | _ + 1, _, [] => none
  | k + 1, acc, c :: cs =>
    if c.isDigit then readDigits k (acc * 10 + (c.toNat - 48)) cs else none

/-- Consume one expected separator character. -/
def expectChar (c : Char) : List Char → Option (List Char)
  | [] => none
  | x :: xs => if x = c then some xs else none

theorem digitChar_isDigit {d : ℕ} (h : d < 10) : (digitChar d).isDigit = true := by
  interval_cases d <;> decide

theorem digitChar_val {d : ℕ} (h : d < 10) : (digitChar d).toNat - 48 = d := by
  interval_cases d <;> decide

theorem digitChar_ne_Z {d : ℕ} (h : d < 10) : digitChar d ≠ 'Z' := by
  interval_cases d <;> decide

theorem readDigits_pad (k : ℕ) :
    ∀ (n acc : ℕ) (rest : List Char), n < 10 ^ k →
      readDigits k acc (padNat k n ++ rest) = some (acc * 10 ^ k + n, rest) := by
  induction k with
  | zero =>
    intro n acc rest h
    interval_cases n
    simp [padNat, readDigits]
  | succ k ih =>
    intro n acc rest h
    have hd : n / 10 ^ k < 10 := by
      rw [Nat.div_lt_iff_lt_mul (Nat.pos_pow_of_pos k (by norm_num))]
      calc n < 10 ^ (k + 1) := h
        _ = 10 * 10 ^ k := by ring
        _ ≤ 10 * 10 ^ k := le_refl _
    have hm : n % 10 ^ k < 10 ^ k := Nat.mod_lt _ (Nat.pos_pow_of_pos k (by norm_num))
    rw [padNat, List.cons_append, readDigits]
    rw [if_pos (digitChar_isDigit hd), digitChar_val hd, ih _ _ _ hm]
    congr 1
    have hdm : 10 ^ k * (n / 10 ^ k) + n % 10 ^ k = n := Nat.div_add_mod n (10 ^ k)
    congr 1
    calc (acc * 10 + n / 10 ^ k) * 10 ^ k + n % 10 ^ k
        = acc * (10 ^ k * 10) + (10 ^ k * (n / 10 ^ k) + n % 10 ^ k) := by ring
      _ = acc * (10 ^ k * 10) + n := by rw [hdm]
      _ = acc * 10 ^ (k + 1) + n := by ring

theorem readDigits_pad0 {k n : ℕ} (rest : List Char) (h : n < 10 ^ k) :
    readDigits k 0 (padNat k n ++ rest) = some (n, rest) := by
  rw [readDigits_pad k n 0 rest h, Nat.zero_mul, Nat.zero_add]

theorem expectChar_cons (c : Char) (rest : List Char) :
    expectChar c (c :: rest) = some rest := by
  simp [expectChar]

theorem padNat_ne_Z (k : ℕ) :
    ∀ n, n < 10 ^ k → ∀ c ∈ padNat k n, c ≠ 'Z' := by
  induction k with
  | zero => intro n _ c hc; cases hc
  | succ k ih =>
    intro n h c hc
    have hd : n / 10 ^ k < 10 := by
      rw [Nat.div_lt_iff_lt_mul (Nat.pos_pow_of_pos k (by norm_num))]
      calc n < 10 ^ (k + 1) := h
        _ = 10 * 10 ^ k := by ring
    have hm : n % 10 ^ k < 10 ^ k := Nat.mod_lt _ (Nat.pos_pow_of_pos k (by norm_num))
    rw [padNat] at hc
    rcases List.mem_cons.mp hc with rfl | hc'
    · exact digitChar_ne_Z hd
    · exact ih _ hm c hc'

/-- The `%Y-%m-%dT%H:%M:%S` rendering of a datetime's fields
(main.py lines 85, 243, 247). -/
def renderBase (d : PyDateTime) : List Char :=
  padNat 4 d.year ++ '-' :: (padNat 2 d.month ++ '-' :: (padNat 2 d.day ++
    'T' :: (padNat 2 d.hour ++ ':' :: (padNat 2 d.minute ++ ':' :: padNat 2 d.second))))

/-- The second-precision lower-bound rendering (`start_str`). -/
def renderLower (d : PyDateTime) : List Char := renderBase d

/-- The `.999999Z` upper-bound rendering (`end_str`, main.py lines 88, 244,
250): the same fields followed by the literal fraction and `Z`. -/
def renderUpper (d : PyDateTime) : List Char :=
  renderBase d ++ '.' :: '9' :: '9' :: '9' :: '9' :: '9' :: '9' :: 'Z' :: []

/-- Python `ts.replace("Z", "+00:00")` over the character list: every `Z`
becomes `+00:00`. -/
def replaceZ : List Char → List Char
  | [] => []
  | c :: rest =>
    (if c = 'Z' then '+' :: '0' :: '0' :: ':' :: '0' :: '0' :: [] else [c]) ++ replaceZ rest

/-- A `±HH:MM` UTC-offset suffix, in minutes. -/
def parseOffset (cs : List Char) : Option ℤ :=
  match cs with
  | '+' :: rest =>
    (readDigits 2 0 rest).bind (fun p =>
      (expectChar ':' p.2).bind (fun r2 =>
        (readDigits 2 0 r2).bind (fun q =>
          match q.2 with
          | [] => if p.1 < 24 ∧ q.1 < 60 then some ((p.1 : ℤ) * 60 + q.1) else none
          | _ => none)))
  | '-' :: rest =>
    (readDigits 2 0 rest).bind (fun p =>
      (expectChar ':' p.2).bind (fun r2 =>
        (readDigits 2 0 r2).bind (fun q =>
          match q.2 with
          | [] => if p.1 < 24 ∧ q.1 < 60 then some (-((p.1 : ℤ) * 60 + q.1)) else none
          | _ => none)))
  | _ => none

/-- Continuation of `fromisoformat` after the date-time core: optional
fractional seconds, optional offset, with field-range validation. -/
def parseTail (y mo dy h mi se : ℕ) (cs : List Char) : Option PyDateTime :=
  if 1 ≤ mo ∧ mo ≤ 12 ∧ 1 ≤ dy ∧ dy ≤ 31 ∧ h < 24 ∧ mi < 60 ∧ se < 60 then
    match cs with
    | [] => some ⟨y, mo, dy, h, mi, se, 0, none⟩
    | '.' :: rest =>
      (readDigits 6 0 rest).bind (fun p =>
        match p.2 with
        | [] => some ⟨y, mo, dy, h, mi, se, p.1, none⟩
        | tzcs => (parseOffset tzcs).map (fun tz => ⟨y, mo, dy, h, mi, se, p.1, some tz⟩))
    | tzcs => (parseOffset tzcs).map (fun tz => ⟨y, mo, dy, h, mi, se, 0, some tz⟩)
  else none

/-- `datetime.fromisoformat` on the accepted grammar. -/
def fromisoformat (cs : List Char) : Option PyDateTime :=
  (readDigits 4 0 cs).bind (fun py =>
    (expectChar '-' py.2).bind (fun c1 =>
      (readDigits 2 0 c1).bind (fun pmo =>
        (expectChar '-' pmo.2).bind (fun c2 =>
          (readDigits 2 0 c2).bind (fun pdy =>
            (expectChar 'T' pdy.2).bind (fun c3 =>
              (readDigits 2 0 c3).bind (fun ph =>
                (expectChar ':' ph.2).bind (fun c4 =>
                  (readDigits 2 0 c4).bind (fun pmi =>
                    (expectChar ':' pmi.2).bind (fun c5 =>
                      (readDigits 2 0 c5).bind (fun pse =>
                        parseTail py.1 pmo.1 pdy.1 ph.1 pmi.1 pse.1 pse.2)))))))))))

/-- A raw timestamp value as handled by `parse_timestamp`: an ISO string or
a native datetime. -/
inductive TsVal where
  | str (cs : List Char)
  | dtv (d : PyDateTime)

/-- `parse_timestamp` (main.py lines 37-41): strings go through
`replace("Z", "+00:00")` then `fromisoformat`; native datetimes are returned
unchanged. -/
def parse_timestamp : TsVal → Option PyDateTime
  | TsVal.str cs => fromisoformat (replaceZ cs)
  | TsVal.dtv d => some d

theorem replaceZ_append (a b : List Char) :
    replaceZ (a ++ b) = replaceZ a ++ replaceZ b := by
  induction a with
  | nil => rfl
  | cons c rest ih => simp [replaceZ, ih]

theorem replaceZ_of_not_mem {cs : List Char} (h : 'Z' ∉ cs) : replaceZ cs = cs := by
  induction cs with
  | nil => rfl
  | cons c rest ih =>
    have hc : c ≠ 'Z' := fun hz => h (hz ▸ List.mem_cons_self _ _)
    have hr : 'Z' ∉ rest := fun hz => h (List.mem_cons_of_mem _ hz)
    simp [replaceZ, hc, ih hr]

theorem not_mem_Z_renderBase {d : PyDateTime} (hv : ValidDT d) :
    'Z' ∉ renderBase d := by
  obtain ⟨h1, h2, h3, h4, h5, h6, h7, h8, h9, _⟩ := hv
  have hy : d.year < 10 ^ 4 := by norm_num; omega
  have hmo : d.month < 10 ^ 2 := by norm_num; omega
  have hdy : d.day < 10 ^ 2 := by norm_num; omega
  have hh : d.hour < 10 ^ 2 := by norm_num; omega
  have hmi : d.minute < 10 ^ 2 := by norm_num; omega
  have hse : d.second < 10 ^ 2 := by norm_num; omega
  intro hmem
  rw [renderBase] at hmem
  simp only [List.mem_append, List.mem_cons] at hmem
  rcases hmem with h | h | h | h | h | h | h | h | h | h | h
  · exact padNat_ne_Z 4 _ hy _ h rfl
  · cases h
  · exact padNat_ne_Z 2 _ hmo _ h rfl
  · cases h
  · exact padNat_ne_Z 2 _ hdy _ h rfl
  · cases h
  · exact padNat_ne_Z 2 _ hh _ h rfl
  · cases h
  · exact padNat_ne_Z 2 _ hmi _ h rfl
  · cases h
  · exact padNat_ne_Z 2 _ hse _ h rfl

theorem fromiso_render (d : PyDateTime) (hv : ValidDT d) (suffix : List Char) :
    fromisoformat (renderBase d ++ suffix) =
      parseTail d.year d.month d.day d.hour d.minute d.second suffix := by
  obtain ⟨h1, h2, h3, h4, h5, h6, h7, h8, h9, _⟩ := hv
  have hy : d.year < 10 ^ 4 := by norm_num; omega
  have hmo : d.month < 10 ^ 2 := by norm_num; omega
  have hdy : d.day < 10 ^ 2 := by norm_num; omega
  have hh : d.hour < 10 ^ 2 := by norm_num; omega
  have hmi : d.minute < 10 ^ 2 := by norm_num; omega
  have hse : d.second < 10 ^ 2 := by norm_num; omega
  rw [renderBase, fromisoformat]
  simp only [List.append_assoc, List.cons_append]
  rw [readDigits_pad0 _ hy]
  simp only [Option.some_bind]
  rw [expectChar_cons]
  simp only [Option.some_bind]
  rw [readDigits_pad0 _ hmo]
  simp only [Option.some_bind]
  rw [expectChar_cons]
  simp only [Option.some_bind]
  rw [readDigits_pad0 _ hdy]
  simp only [Option.some_bind]
  rw [expectChar_cons]
  simp only [Option.some_bind]
  rw [readDigits_pad0 _ hh]
  simp only [Option.some_bind]
  rw [expectChar_cons]
  simp only [Option.some_bind]
  rw [readDigits_pad0 _ hmi]
  simp only [Option.some_bind]
  rw [expectChar_cons]
  simp only [Option.some_bind]
  rw [readDigits_pad0 _ hse]
  simp only [Option.some_bind]

/-- C4: timestamp round-trip.  The native encoding round-trips exactly.  The
second-precision lower-bound string rendering parses back to the original
instant truncated to whole seconds (all calendar fields through the second
preserved, microseconds zeroed).  The `.999999Z` upper-bound rendering parses
back (via the `Z → +00:00` replacement) to the original instant's second with
999999 microseconds and a UTC offset — i.e. each encoding recovers the
instant at exactly the precision it carries. -/
theorem parse_timestamp_roundtrip :
    ∀ d : PyDateTime, ValidDT d →
      parse_timestamp (TsVal.dtv d) = some d ∧
      parse_timestamp (TsVal.str (renderLower d)) =
        some { d with microsecond := 0, tzMinutes := none } ∧
      parse_timestamp (TsVal.str (renderUpper d)) =
        some { d with microsecond := 999999, tzMinutes := some 0 } := by
  intro d hv
  obtain ⟨h1, h2, h3, h4, h5, h6, h7, h8, h9, h10⟩ := id hv
  refine ⟨rfl, ?_, ?_⟩
  · rw [parse_timestamp, renderLower,
      replaceZ_of_not_mem (not_mem_Z_renderBase hv)]
    have hfr := fromiso_render d hv []
    rw [List.append_nil] at hfr
    rw [hfr, parseTail, if_pos ⟨h3, h4, h5, h6, h7, h8, h9⟩]
  · rw [parse_timestamp, renderUpper, replaceZ_append,
      replaceZ_of_not_mem (not_mem_Z_renderBase hv)]
    rw [show replaceZ ('.' :: '9' :: '9' :: '9' :: '9' :: '9' :: '9' :: 'Z' :: []) =
      '.' :: '9' :: '9' :: '9' :: '9' :: '9' :: '9' :: '+' :: '0' :: '0' :: ':' :: '0' :: '0' :: []
      from rfl]
    rw [fromiso_render d hv _, parseTail, if_pos ⟨h3, h4, h5, h6, h7, h8, h9⟩]
    rfl

/-- Witness for C4 at a concrete datetime (2024-05-06T07:08:09.123456): the
native value round-trips exactly; its lower-bound rendering parses back with
microseconds zeroed; its upper-bound rendering parses back at `.999999` UTC. -/
theorem parse_timestamp_roundtrip_witness :
    parse_timestamp (TsVal.str (renderLower ⟨2024, 5, 6, 7, 8, 9, 123456, none⟩)) =
      some ⟨2024, 5, 6, 7, 8, 9, 0, none⟩ ∧
    parse_timestamp (TsVal.str (renderUpper ⟨2024, 5, 6, 7, 8, 9, 123456, none⟩)) =
      some ⟨2024, 5, 6, 7, 8, 9, 999999, some 0⟩ := by
  have h := parse_timestamp_roundtrip ⟨2024, 5, 6, 7, 8, 9, 123456, none⟩
    (by refine ⟨?_, ?_, ?_, ?_, ?_, ?_, ?_, ?_, ?_, ?_⟩ <;> norm_num)
  exact ⟨h.2.1, h.2.2⟩

/-! ## Continuous generator/tagger loop (populate_and_process.py lines 100-170)

Discrete-time model of `run_continuous`.  Each primitive step (building and
inserting one tick's batch, or one 0.1-second sleep slice) advances an
abstract time counter by one; the stop signal delivered by the OS is
modelled by its arrival time `stopAt`: every read of the `running` flag at
time `t` returns `t < stopAt`.  Random value generation is an oracle
argument `gen` (tick time × sensor key → value); `insert_many` persists the
whole tick batch as one action.  `slices` is `int(interval * 10)`, the
number of 0.1-second interruptible sleep segments per tick. -/

/-- A node entry of the `targets` list (`{'_id': ..., 'sensors': [...]}`). -/
structure Target where
  id : String
  sensors : List String
deriving DecidableEq, Repr

/-- One observable action of the loop: persisting a tick batch, or sleeping
one 0.1-second slice. -/
inductive Action where
  | insert (batch : List Doc) : Action
  | sleepSlice : Action
deriving DecidableEq, Repr

/-- One tick's generated sensor map for a target: only sensors listed for
the node that also have a threshold rule (lines 137-144); the generated
value comes from the oracle. -/
def tickSensorData (gen : String → SensorValue) (t : Target) :
    List (String × SensorValue) :=
  (t.sensors.filter (fun k => (THRESHOLDS k).isSome)).map (fun k => (k, gen k))

/-- One tick's batch: one inline-tagged document per target (lines 133-154). -/
def tickBatch (gen : ℕ → String → SensorValue) (targets : List Target)
    (tick : ℕ) : List Doc :=
  targets.map (fun tg => mkDoc tg.id 0 (TsRaw.dtv tick) (tickSensorData (gen tick) tg))

/-- The sliced inter-tick sleep (lines 163-167): up to `n` slices, each
checking the `running` flag first and stopping as soon as it is false.
Returns the recorded slice actions (with their start times) and the time
after the sleep. -/
def sleepPhase : ℕ → ℕ → ℕ → (List (Action × ℕ) × ℕ)
  | 0, t, _ => ([], t)
  | n + 1, t, a =>
    if t < a then
      let r := sleepPhase n (t + 1) a
      ((Action.sleepSlice, t) :: r.1, r.2)
    else ([], t)

/-- The `while running` loop (lines 130-167), fuel-bounded: at each
iteration the flag is read; while it is still true, a full tick batch is
built and inserted (occupying one time unit), then the sliced sleep runs. -/
def loopTrace (gen : ℕ → String → SensorValue) (targets : List Target)
    (slices : ℕ) : ℕ → ℕ → ℕ → List (Action × ℕ)
  | 0, _, _ => []
  | fuel + 1, t, a =>
    if t < a then
      let sl := sleepPhase slices (t + 1) a
      (Action.insert (tickBatch gen targets t), t) ::
        (sl.1 ++ loopTrace gen targets slices fuel sl.2 a)
    else []

/-- `run_continuous` from time 0 with the stop signal arriving at `stopAt`. -/
def run_continuous (gen : ℕ → String → SensorValue) (targets : List Target)
    (slices fuel stopAt : ℕ) : List (Action × ℕ) :=
  loopTrace gen targets slices fuel 0 stopAt

/-- An insert whose completion (start time + 1) is not before the stop
signal: a batch persisted at or after cancellation. -/
def isLateInsert (a : ℕ) (p : Action × ℕ) : Bool :=
  match p.1 with
  | Action.insert _ => decide (a ≤ p.2 + 1)
  | Action.sleepSlice => false

theorem sleepPhase_stopped (n t a : ℕ) (h : a ≤ t) : sleepPhase n t a = ([], t) := by
  cases n with
  | zero => rfl
  | succ m => rw [sleepPhase, if_neg (Nat.not_lt.mpr h)]

theorem loopTrace_stopped (gen : ℕ → String → SensorValue) (targets : List Target)
    (slices fuel t a : ℕ) (h : a ≤ t) : loopTrace gen targets slices fuel t a = [] := by
  cases fuel with
  | zero => rfl
  | succ f => rw [loopTrace, if_neg (Nat.not_lt.mpr h)]

theorem sleepPhase_elems (a : ℕ) :
    ∀ (n t : ℕ), ∀ p ∈ (sleepPhase n t a).1, p.1 = Action.sleepSlice ∧ p.2 < a := by
  intro n
  induction n with
  | zero => intro t p hp; cases hp
  | succ m ih =>
    intro t p hp
    rw [sleepPhase] at hp
    by_cases ht : t < a
    · rw [if_pos ht] at hp
      rcases List.mem_cons.mp hp with rfl | hp'
      · exact ⟨rfl, ht⟩
      · exact ih (t + 1) p hp'
    · rw [if_neg ht] at hp
      cases hp

theorem loopTrace_elems (gen : ℕ → String → SensorValue) (targets : List Target)
    (slices a : ℕ) :
    ∀ (fuel t : ℕ), ∀ p ∈ loopTrace gen targets slices fuel t a,
      p.1 = Action.insert (tickBatch gen targets p.2) ∨
        (p.1 = Action.sleepSlice ∧ p.2 < a) := by
  intro fuel
  induction fuel with
  | zero => intro t p hp; cases hp
  | succ f ih =>
    intro t p hp
    rw [loopTrace] at hp
    by_cases ht : t < a
    · rw [if_pos ht] at hp
      rcases List.mem_cons.mp hp with rfl | hp'
      · exact Or.inl rfl
      · rcases List.mem_append.mp hp' with hs | hl
        · exact Or.inr (sleepPhase_elems a slices (t + 1) p hs)
        · exact ih _ p hl
    · rw [if_neg ht] at hp
      cases hp

theorem loopTrace_late_le_one (gen : ℕ → String → SensorValue)
    (targets : List Target) (slices a : ℕ) :
    ∀ (fuel t : ℕ),
      ((loopTrace gen targets slices fuel t a).countP (isLateInsert a)) ≤ 1 := by
  intro fuel
  induction fuel with
  | zero => intro t; simp [loopTrace]
  | succ f ih =>
    intro t
    rw [loopTrace]
    by_cases ht : t < a
    · rw [if_pos ht]
      rw [List.countP_cons, List.countP_append]
      have hsleep : ((sleepPhase slices (t + 1) a).1.countP (isLateInsert a)) = 0 := by
        rw [List.countP_eq_zero]
        intro p hp
        have := (sleepPhase_elems a slices (t + 1) p hp).1
        simp [isLateInsert, this]
      by_cases hlate : a ≤ t + 1
      · have ha : a = t + 1 := by omega
        have hrest : loopTrace gen targets slices f (sleepPhase slices (t + 1) a).2 a = [] := by
          apply loopTrace_stopped
          rw [ha, sleepPhase_stopped _ _ _ (by omega)]
        rw [hrest, hsleep]
        simp [isLateInsert, hlate]
      · rw [hsleep]
        have hhead : isLateInsert a (Action.insert (tickBatch gen targets t), t) = false := by
          simp [isLateInsert]
          omega
        rw [hhead]
        simpa using ih (sleepPhase slices (t + 1) a).2
    · rw [if_neg ht]
      simp

/-- C9: cancellation of the continuous loop, in the discrete-time model:
every persisted batch is a whole tick (exactly one inline-tagged document
per target — never a partial batch), at most one batch completes at or after
the stop signal (the in-flight tick finishes; nothing more is inserted), and
no 0.1-second sleep slice begins after the signal (the sliced sleep bounds
cancellation latency by one slice rather than the full tick interval). -/
theorem run_continuous_cancellation :
    ∀ (gen : ℕ → String → SensorValue) (targets : List Target)
      (slices fuel stopAt : ℕ),
      (∀ p ∈ run_continuous gen targets slices fuel stopAt,
        ∀ b, p.1 = Action.insert b →
          b = tickBatch gen targets p.2 ∧ b.length = targets.length) ∧
      ((run_continuous gen targets slices fuel stopAt).countP
        (isLateInsert stopAt)) ≤ 1 ∧
      (∀ p ∈ run_continuous gen targets slices fuel stopAt,
        p.1 = Action.sleepSlice → p.2 < stopAt) := by
  intro gen targets slices fuel stopAt
  refine ⟨?_, loopTrace_late_le_one gen targets slices stopAt fuel 0, ?_⟩
  · intro p hp b hb
    rcases loopTrace_elems gen targets slices stopAt fuel 0 p hp with h | ⟨h, _⟩
    · rw [hb] at h
      have hbe : b = tickBatch gen targets p.2 := by
        injection h
      exact ⟨hbe, by rw [hbe, tickBatch, List.length_map]⟩
    · rw [hb] at h
      cases h
  · intro p hp hs
    rcases loopTrace_elems gen targets slices stopAt fuel 0 p hp with h | ⟨_, h⟩
    · rw [hs] at h
      cases h
    · exact h

/-- Unused-oracle generator for the C9 witness. -/
def c9gen : ℕ → String → SensorValue := fun _ _ => SensorValue.vStrBad

/-- Witness for C9 at a concrete run: one sensorless target, 2 sleep slices
per tick, fuel 2, stop signal at time 2.  The trace is one full inserted
batch at time 0 and one sleep slice at time 1; the theorem's late-insert
bound and sleep-before-signal property apply to it. -/
theorem run_continuous_cancellation_witness :
    run_continuous c9gen [⟨"n", []⟩] 2 2 2 =
      [(Action.insert [⟨0, "n", TsRaw.dtv 0, [], some 0, some []⟩], 0),
       (Action.sleepSlice, 1)] ∧
    ((run_continuous c9gen [⟨"n", []⟩] 2 2 2).countP (isLateInsert 2)) ≤ 1 ∧
    (1 : ℕ) < 2 := by
  have htr : run_continuous c9gen [⟨"n", []⟩] 2 2 2 =
      [(Action.insert [⟨0, "n", TsRaw.dtv 0, [], some 0, some []⟩], 0),
       (Action.sleepSlice, 1)] := rfl
  refine ⟨htr, (run_continuous_cancellation c9gen [⟨"n", []⟩] 2 2 2).2.1, ?_⟩
  apply (run_continuous_cancellation c9gen [⟨"n", []⟩] 2 2 2).2.2
    (Action.sleepSlice, 1) ?_ rfl
  rw [htr]
  exact List.mem_cons_of_mem _ (List.mem_cons_self _ _)

end PD20
